import Mathlib

/-!
Verification of the awesome-drizzle helper functions.

The repository contains two cooperating functions, `buildConflictUpdateColumns`
(build the `set` clause of an upsert from a table's column mapping and an
exclusion list) and `upsertRecord` (issue a single insert-with-conflict-update
statement), plus small array helpers `takeFirstOrNull` / `takeFirstOrThrow`.

The embedding models a Drizzle table as an ordered association list from
logical column identifiers to column descriptors (a JavaScript object has
unique keys, recorded by the `nodupIds` field), a SQL fragment produced by
`sql.raw` as a constructor holding the raw string, and JavaScript runtime
values (needed for the truthiness check in `takeFirstOrThrow`) as an
inductive `JSValue` with the usual truthiness rules.

The query-builder itself (drizzle-orm) is an external collaborator; the
statement `upsertRecord` issues and the backend's conflict-resolution
semantics are modelled from the spec (sections 4.2 and 6).
-/

namespace AwesomeDrizzle

/-- A JavaScript runtime value, as far as the helpers here observe one:
`null`, `undefined`, booleans, (integer) numbers and strings. -/
inductive JSValue where
  | vnull : JSValue
  | vundefined : JSValue
  | vbool : Bool → JSValue
  | vnum : Int → JSValue
  | vstr : String → JSValue
deriving DecidableEq, Repr

/-- JavaScript truthiness: `null`, `undefined`, `false`, `0` and `""` are
falsy, everything else observed here is truthy. -/
def truthy : JSValue → Bool
  | .vnull => false
  | .vundefined => false
  | .vbool b => b
  | .vnum n => n != 0
  | .vstr s => s != ""

/-- `takeFirstOrNull` from the utilities file:
`values.length > 0 ? values[0] : null`.  Out-of-range indexing in JavaScript
yields `undefined`, hence the `getD` default, which the length guard makes
unreachable. -/
def takeFirstOrNull (values : List JSValue) : JSValue :=
  if 0 < values.length then values.getD 0 JSValue.vundefined else JSValue.vnull

/-- `takeFirstOrThrow` from the utilities file: take the first element via
`takeFirstOrNull`, throw `"First item not found"` when `!first`, i.e. when
the result is falsy (which conflates `null` with a falsy first element). -/
def takeFirstOrThrow (items : List JSValue) : Except String JSValue :=
  let first := takeFirstOrNull items
  if ! truthy first then Except.error "First item not found" else Except.ok first

/-- A Drizzle column descriptor: of its metadata only the underlying storage
`name` is read by the code under verification. -/
structure Column where
  name : String
deriving DecidableEq, Repr

/-- A SQL fragment as produced by `sql.raw`. -/
inductive SQL where
  | raw : String → SQL
deriving DecidableEq, Repr

/-- A table: an ordered mapping from logical column identifier to column
descriptor.  A JavaScript object cannot hold the same key twice, so the
key list is duplicate-free. -/
structure Table where
  cols : List (String × Column)
  nodupIds : (cols.map Prod.fst).Nodup

/-- `getTableColumns` from drizzle-orm: the table's column mapping. -/
def getTableColumns (t : Table) : List (String × Column) := t.cols

/-- The table's logical column identifiers, in declaration order. -/
def Table.ids (t : Table) : List String := t.cols.map Prod.fst

/-- `buildConflictUpdateColumns` from build-conflict-update-columns.ts:
filter the table's column identifiers by the exclusion list, then build the
object mapping each remaining identifier to `sql.raw("excluded.<name>")`
where `<name>` is the descriptor's storage name.  The source's
`reduce` assigns each key once into a fresh object, modelled by appending
to an association list; `allColumns[column]` is total because `column`
ranges over the keys of `allColumns` itself, so the `getD` default is
unreachable. -/
def buildConflictUpdateColumns (table : Table) (excludeColumns : List String) :
    List (String × SQL) :=
  let allColumns := getTableColumns table
  let columnsToUpdate := (allColumns.map Prod.fst).filter
    (fun column => ! excludeColumns.contains column)
  columnsToUpdate.foldl
    (fun acc column =>
      let colName := ((allColumns.lookup column).getD { name := "" }).name
      acc ++ [(column, SQL.raw ("excluded." ++ colName))])
    []

/-- A database row, keyed by logical column identifiers. -/
abbrev Row := List (String × JSValue)

/-- Modelled from the spec (section 6): the statement-builder collaborator's
`insertWithConflictResolution(table, record, { conflictTarget, updateClause })`
primitive is external to the repository, so the statement the chained calls
`insert(table).values(data).onConflictDoUpdate({ target, set }).returning()`
construct is reified as a record of its four components. -/
structure InsertStatement where
  table : Table
  values : Row
  target : List String
  set : List (String × SQL)

/-- `upsertRecord` from upsert-record.ts: build the single
insert-with-conflict-update statement, with the update clause computed by
`buildConflictUpdateColumns` and `excludeColumns` defaulting to `[]`. -/
def upsertRecord (table : Table) (data : Row) (conflictColumns : List String)
    (excludeColumns : List String := []) : InsertStatement :=
  { table := table
    values := data
    target := conflictColumns
    set := buildConflictUpdateColumns table excludeColumns }

/-- Modelled from the spec (section 9): the `excluded.<storage name>`
placeholder denotes "the value proposed by the conflicting insert for this
column"; evaluating it over the proposed row finds the column whose storage
name the raw fragment references and reads the proposed value under that
column's logical identifier. -/
def evalConflictExpr (t : Table) (proposed : Row) : SQL → Option JSValue
  | SQL.raw s =>
    match t.cols.find? (fun p => s == "excluded." ++ p.2.name) with
    | some (id, _) => proposed.lookup id
    | none => none

/-- Overwrite the value stored under key `k` in a row (an SQL UPDATE assigns
to an existing column; it never adds one). -/
def setValue (row : Row) (k : String) (v : JSValue) : Row :=
  row.map (fun p => if p.1 = k then (k, v) else p)

/-- Apply one update-clause entry to a row: evaluate its expression over the
proposed row and assign the result, leaving the row unchanged if the
expression references no column. -/
def applyUpdate (t : Table) (proposed : Row) (row : Row) (entry : String × SQL) :
    Row :=
  match evalConflictExpr t proposed entry.2 with
  | some v => setValue row entry.1 v
  | none => row

/-- Apply a whole update clause to a row, left to right. -/
def applySet (t : Table) (proposed : Row) (row : Row)
    (entries : List (String × SQL)) : Row :=
  entries.foldl (applyUpdate t proposed) row

/-- Two rows conflict on a uniqueness target when both carry equal values on
every target column. -/
def rowsConflict (target : List String) (r proposed : Row) : Bool :=
  target.all (fun c =>
    match r.lookup c, proposed.lookup c with
    | some a, some b => a == b
    | _, _ => false)

/-- Modelled from the spec (section 4.2): the backend's execution of an
insert-with-conflict-update statement over a store of rows.  With no
conflicting row the record is inserted and returned; with a conflicting row
the update clause is applied to it and the updated row is returned. -/
def executeInsert (db : List Row) (stmt : InsertStatement) :
    List Row × List Row :=
  match db.find? (fun r => rowsConflict stmt.target r stmt.values) with
  | none => (db ++ [stmt.values], [stmt.values])
  | some r =>
      let updated := applySet stmt.table stmt.values r stmt.set
      (db.map (fun q => if rowsConflict stmt.target q stmt.values then updated else q),
       [updated])

/-- Modelled from the spec (section 7): running an upsert over an arbitrary
connection that either returns rows or raises an error; `upsertRecord`
returns the connection's result directly, with no handling of its own. -/
def runUpsert (exec : InsertStatement → Except String (List Row))
    (t : Table) (data : Row) (cc ec : List String) : Except String (List Row) :=
  exec (upsertRecord t data cc ec)

/-! ### Concrete instances -/

/-- A concrete two-column table (the spec's `{id, email}` scenario) used to
instantiate the theorems. -/
def T0 : Table :=
  { cols := [("id", { name := "id" }), ("email", { name := "email" })]
    nodupIds := by decide }

/-- The existing row of the spec's conflict scenario. -/
def row0 : Row := [("id", JSValue.vnum 1), ("email", JSValue.vstr "old@x.com")]

/-- The proposed record of the spec's conflict scenario. -/
def data0 : Row := [("id", JSValue.vnum 1), ("email", JSValue.vstr "a@x.com")]

/-! ### Helper lemmas -/

/-- Folding an append of singleton pairs over a key list materialises the
association list of the keys. -/
theorem foldl_append_eq_map {β : Type} (g : String → β) (L : List String) :
    ∀ acc : List (String × β),
      L.foldl (fun a c => a ++ [(c, g c)]) acc = acc ++ L.map (fun c => (c, g c)) := by
  induction L with
  | nil => intro acc; simp
  | cons c L ih =>
      intro acc
      simp only [List.foldl_cons, List.map_cons, ih, List.append_assoc,
        List.singleton_append]

/-- `buildConflictUpdateColumns` in closed form: the association list of the
non-excluded identifiers, in table order, each mapped to its
`excluded.<storage name>` fragment. -/
theorem build_eq_map (t : Table) (E : List String) :
    buildConflictUpdateColumns t E
      = ((t.cols.map Prod.fst).filter (fun c => ! E.contains c)).map
          (fun c =>
            (c, SQL.raw ("excluded." ++ ((t.cols.lookup c).getD { name := "" }).name))) := by
  simp only [buildConflictUpdateColumns, getTableColumns]
  simpa using
    foldl_append_eq_map
      (fun c => SQL.raw ("excluded." ++ ((t.cols.lookup c).getD { name := "" }).name))
      ((t.cols.map Prod.fst).filter (fun c => ! E.contains c)) []

/-- Looking up a key in an association list built by pairing each key with a
function of itself returns that function of the key. -/
theorem lookup_map_self {β : Type} (g : String → β) :
    ∀ (L : List String) (c : String), c ∈ L →
      (L.map (fun x => (x, g x))).lookup c = some (g c) := by
  intro L
  induction L with
  | nil => intro c h; cases h
  | cons a L ih =>
      intro c h
      by_cases hca : c = a
      · subst hca; simp [List.lookup]
      · have hmem : c ∈ L := by
          rcases List.mem_cons.mp h with h1 | h1
          · exact absurd h1 hca
          · exact h1
        have hbeq : (c == a) = false := beq_eq_false_iff_ne.mpr hca
        simp [List.lookup, hbeq, ih c hmem]

/-- In an association list with duplicate-free keys, lookup of the key of a
member pair returns that pair's value. -/
theorem lookup_eq_of_mem_nodup {β : Type} :
    ∀ (l : List (String × β)), (l.map Prod.fst).Nodup →
      ∀ (c : String) (b : β), (c, b) ∈ l → l.lookup c = some b := by
  intro l
  induction l with
  | nil => intro _ c b h; cases h
  | cons p l ih =>
      intro hn c b h
      obtain ⟨k, v⟩ := p
      simp only [List.map_cons, List.nodup_cons] at hn
      rcases List.mem_cons.mp h with h1 | h1
      · cases h1
        simp [List.lookup]
      · have hck : c ≠ k := by
          intro he
          subst he
          exact hn.1 (List.mem_map.mpr ⟨(c, b), h1, rfl⟩)
        have hbeq : (c == k) = false := beq_eq_false_iff_ne.mpr hck
        simp only [List.lookup, hbeq]
        exact ih hn.2 c b h1

/-- Left-cancellation for string append. -/
theorem string_append_cancel_left (s a b : String) (h : s ++ a = s ++ b) : a = b := by
  have hd : s.data ++ a.data = s.data ++ b.data := by
    have hc := congrArg String.data h
    simpa [String.data_append] using hc
  exact String.ext (List.append_cancel_left hd)

/-- With duplicate-free storage names, searching the column list for the
column whose storage name a fragment references finds exactly the member
pair carrying that name. -/
theorem find_by_name :
    ∀ (l : List (String × Column)), (l.map (fun q => q.2.name)).Nodup →
      ∀ (c : String) (col : Column), (c, col) ∈ l →
        l.find? (fun p => ("excluded." ++ col.name) == "excluded." ++ p.2.name)
          = some (c, col) := by
  intro l
  induction l with
  | nil => intro _ c col h; cases h
  | cons p l ih =>
      intro hn c col h
      obtain ⟨k, d⟩ := p
      simp only [List.map_cons, List.nodup_cons] at hn
      rcases List.mem_cons.mp h with h1 | h1
      · cases h1
        simp [List.find?]
      · have hname : d.name ≠ col.name := by
          intro he
          apply hn.1
          rw [he]
          exact List.mem_map.mpr ⟨(c, col), h1, rfl⟩
        have hfind : (("excluded." ++ col.name) == "excluded." ++ d.name) = false := by
          refine beq_eq_false_iff_ne.mpr ?_
          intro he
          exact hname (string_append_cancel_left _ _ _ he).symm
        simp only [List.find?, hfind]
        exact ih hn.2 c col h1

/-- Evaluating the `excluded.<name>` fragment of a member column over the
proposed row reads the proposed value of that column, provided the table's
storage names are duplicate-free. -/
theorem evalConflictExpr_eq (t : Table) (p : Row) (c : String) (col : Column)
    (hmem : (c, col) ∈ t.cols)
    (hnames : (t.cols.map (fun q => q.2.name)).Nodup) :
    evalConflictExpr t p (SQL.raw ("excluded." ++ col.name)) = p.lookup c := by
  simp only [evalConflictExpr, find_by_name t.cols hnames c col hmem]

/-- Unfolding lemma for `List.lookup` on a cons cell, phrased with `cond` so
that a boolean hypothesis on the key comparison rewrites it directly. -/
theorem lookup_cons_eq {β : Type} (q : String) (b : β) (l : List (String × β))
    (c : String) :
    ((q, b) :: l).lookup c = cond (c == q) (some b) (l.lookup c) := by
  cases h : c == q <;> simp [List.lookup, h]

/-- `setValue` does not change the keys of a row. -/
theorem setValue_keys (row : Row) (k : String) (v : JSValue) :
    (setValue row k v).map Prod.fst = row.map Prod.fst := by
  unfold setValue
  rw [List.map_map]
  apply List.map_congr_left
  intro p _
  by_cases h : p.1 = k
  · simp [Function.comp, h]
  · simp [Function.comp, h]

/-- Looking up a different key is unaffected by `setValue`. -/
theorem lookup_setValue_ne (row : Row) (k : String) (v : JSValue) (c : String)
    (hck : c ≠ k) : (setValue row k v).lookup c = row.lookup c := by
  induction row with
  | nil => rfl
  | cons p row ih =>
      obtain ⟨q, w⟩ := p
      simp only [setValue, List.map_cons] at ih ⊢
      by_cases h : q = k
      · subst h
        rw [if_pos rfl, lookup_cons_eq, lookup_cons_eq,
          beq_eq_false_iff_ne.mpr hck]
        exact ih
      · rw [if_neg h, lookup_cons_eq, lookup_cons_eq]
        cases hcq : c == q
        · simpa using ih
        · rfl

/-- Looking up the assigned key after `setValue` yields the new value when
the key was present, and stays absent otherwise. -/
theorem lookup_setValue_self (row : Row) (k : String) (v : JSValue) :
    (setValue row k v).lookup k = (row.lookup k).map (fun _ => v) := by
  induction row with
  | nil => rfl
  | cons p row ih =>
      obtain ⟨q, w⟩ := p
      simp only [setValue, List.map_cons] at ih ⊢
      by_cases h : q = k
      · subst h
        rw [if_pos rfl, lookup_cons_eq, lookup_cons_eq]
        simp
      · have hb : (k == q) = false := by
          refine beq_eq_false_iff_ne.mpr ?_
          intro he
          exact h he.symm
        rw [if_neg h, lookup_cons_eq, lookup_cons_eq, hb]
        exact ih

/-- `applyUpdate` preserves the keys of a row. -/
theorem applyUpdate_keys (t : Table) (p : Row) (row : Row) (entry : String × SQL) :
    (applyUpdate t p row entry).map Prod.fst = row.map Prod.fst := by
  unfold applyUpdate
  cases evalConflictExpr t p entry.2 with
  | none => rfl
  | some v => exact setValue_keys row entry.1 v

/-- A key carried by no update-clause entry is untouched by `applySet`. -/
theorem applySet_lookup_not_mem (t : Table) (p : Row) (c : String) :
    ∀ (entries : List (String × SQL)) (row : Row),
      c ∉ entries.map Prod.fst →
      (applySet t p row entries).lookup c = row.lookup c := by
  intro entries
  induction entries with
  | nil => intro row _; rfl
  | cons e entries ih =>
      intro row hc
      simp only [List.map_cons, List.mem_cons] at hc
      push_neg at hc
      simp only [applySet, List.foldl_cons]
      have h1 := ih (applyUpdate t p row e) hc.2
      rw [show List.foldl (applyUpdate t p) (applyUpdate t p row e) entries
            = applySet t p (applyUpdate t p row e) entries from rfl, h1]
      unfold applyUpdate
      cases evalConflictExpr t p e.2 with
      | none => rfl
      | some v => exact lookup_setValue_ne row e.1 v c hc.1

/-- A key in an association list's key list has a lookup value. -/
theorem lookup_of_mem_keys {β : Type} :
    ∀ (l : List (String × β)) (k : String), k ∈ l.map Prod.fst →
      ∃ w, l.lookup k = some w := by
  intro l
  induction l with
  | nil => intro k h; cases h
  | cons p l ih =>
      intro k h
      obtain ⟨q, b⟩ := p
      by_cases hb : (k == q) = true
      · exact ⟨b, by simp [List.lookup, hb]⟩
      · have hk : k ∈ l.map Prod.fst := by
          have h2 : k = q ∨ k ∈ l.map Prod.fst := by
            simpa only [List.map_cons, List.mem_cons] using h
          rcases h2 with h1 | h1
          · exfalso
            rw [h1] at hb
            simp at hb
          · exact h1
        obtain ⟨w, hw⟩ := ih k hk
        exact ⟨w, by simp [List.lookup, hb, hw]⟩

/-- A key with a lookup value is in the key list. -/
theorem mem_keys_of_lookup {β : Type} :
    ∀ (l : List (String × β)) (k : String) (w : β), l.lookup k = some w →
      k ∈ l.map Prod.fst := by
  intro l
  induction l with
  | nil => intro k w h; cases h
  | cons p l ih =>
      intro k w h
      obtain ⟨q, b⟩ := p
      by_cases hb : (k == q) = true
      · have : k = q := by simpa using hb
        simp [this]
      · simp only [List.lookup, hb] at h
        simp [ih k w h]

/-- With duplicate-free entry keys, the entry carried by a key present in the
row determines the final value of that key after `applySet`. -/
theorem applySet_lookup_mem (t : Table) (p : Row) :
    ∀ (entries : List (String × SQL)) (row : Row) (k : String) (e : SQL)
      (v : JSValue),
      (entries.map Prod.fst).Nodup → (k, e) ∈ entries →
      evalConflictExpr t p e = some v → k ∈ row.map Prod.fst →
      (applySet t p row entries).lookup k = some v := by
  intro entries
  induction entries with
  | nil => intro row k e v _ h; cases h
  | cons q entries ih =>
      intro row k e v hn hmem heval hkey
      obtain ⟨q1, q2⟩ := q
      simp only [List.map_cons, List.nodup_cons] at hn
      rcases List.mem_cons.mp hmem with h1 | h1
      · injection h1 with hk he
        subst hk
        subst he
        simp only [applySet, List.foldl_cons]
        rw [show List.foldl (applyUpdate t p) (applyUpdate t p row (k, e)) entries
              = applySet t p (applyUpdate t p row (k, e)) entries from rfl]
        rw [applySet_lookup_not_mem t p k entries _ hn.1]
        unfold applyUpdate
        simp only [heval]
        rw [lookup_setValue_self row k v]
        obtain ⟨w, hw⟩ := lookup_of_mem_keys row k hkey
        simp [hw]
      · have hk1 : k ≠ q1 := by
          intro he1
          subst he1
          exact hn.1 (List.mem_map.mpr ⟨(k, e), h1, rfl⟩)
        simp only [applySet, List.foldl_cons]
        rw [show List.foldl (applyUpdate t p) (applyUpdate t p row (q1, q2)) entries
              = applySet t p (applyUpdate t p row (q1, q2)) entries from rfl]
        apply ih _ k e v hn.2 h1 heval
        rw [applyUpdate_keys]
        exact hkey

/-- A conflicting pair of rows carries equal present values on every target
column. -/
theorem rowsConflict_lookup (target : List String) (r p : Row)
    (h : rowsConflict target r p = true) (c : String) (hc : c ∈ target) :
    ∃ v, r.lookup c = some v ∧ p.lookup c = some v := by
  have hall := List.all_eq_true.mp h c hc
  rcases hr : r.lookup c with _ | a
  · rw [hr] at hall
    simp at hall
  · rcases hp : p.lookup c with _ | b
    · rw [hr, hp] at hall
      simp at hall
    · rw [hr, hp] at hall
      simp at hall
      exact ⟨a, rfl, by rw [hall]⟩

/-- The keys of the update clause, in order: the table's identifiers with the
excluded ones removed. -/
theorem build_keys (t : Table) (E : List String) :
    (buildConflictUpdateColumns t E).map Prod.fst
      = (t.cols.map Prod.fst).filter (fun c => ! E.contains c) := by
  rw [build_eq_map]
  simp [Function.comp_def]

/-- Membership of the update-clause entry of a non-excluded member column. -/
theorem build_mem (t : Table) (E : List String) (c : String) (col : Column)
    (hmem : (c, col) ∈ t.cols) (hE : c ∉ E) :
    (c, SQL.raw ("excluded." ++ col.name)) ∈ buildConflictUpdateColumns t E := by
  rw [build_eq_map]
  refine List.mem_map.mpr ⟨c, ?_, ?_⟩
  · exact List.mem_filter.mpr
      ⟨List.mem_map.mpr ⟨(c, col), hmem, rfl⟩, by simpa using hE⟩
  · rw [lookup_eq_of_mem_nodup t.cols t.nodupIds c col hmem]
    rfl

/-! ### Claim theorems -/

/-- Claim C1: for every table `T` and exclusion set `E ⊆ columns(T)`, the key
set of `buildConflictUpdateColumns T E` equals `columns(T)` minus `E`; with
`E` empty the key set equals `columns(T)`, and with `E = columns(T)` the
result is the empty mapping (producing an empty mapping is not an error). -/
theorem buildConflictUpdateColumns_keySet (t : Table) (E : List String)
    (hE : ∀ c ∈ E, c ∈ t.ids) :
    (∀ c, c ∈ (buildConflictUpdateColumns t E).map Prod.fst ↔ (c ∈ t.ids ∧ c ∉ E))
      ∧ (buildConflictUpdateColumns t []).map Prod.fst = t.ids
      ∧ buildConflictUpdateColumns t t.ids = [] := by
  refine ⟨?_, ?_, ?_⟩
  · intro c
    rw [build_eq_map]
    simp [Table.ids, List.mem_filter]
  · rw [build_eq_map]
    simp [Table.ids]
  · rw [build_eq_map]
    simp [Table.ids, List.filter_eq_nil_iff]

/-- Witness for C1: the key-set property at the concrete table `T0` with the
exclusion list `["id"]`. -/
theorem buildConflictUpdateColumns_keySet_witness :
    (∀ c, c ∈ (buildConflictUpdateColumns T0 ["id"]).map Prod.fst ↔
        (c ∈ T0.ids ∧ c ∉ ["id"]))
      ∧ (buildConflictUpdateColumns T0 []).map Prod.fst = T0.ids
      ∧ buildConflictUpdateColumns T0 T0.ids = [] :=
  buildConflictUpdateColumns_keySet T0 ["id"] (by decide)

/-- Claim C2: every non-excluded column identifier `c` with descriptor `col`
is bound to the raw fragment `excluded.<col.name>`, referencing the
descriptor's underlying storage name. -/
theorem buildConflictUpdateColumns_value (t : Table) (E : List String)
    (c : String) (col : Column) (hmem : (c, col) ∈ t.cols) (hE : c ∉ E) :
    (buildConflictUpdateColumns t E).lookup c
      = some (SQL.raw ("excluded." ++ col.name)) := by
  rw [build_eq_map]
  have hc : c ∈ (t.cols.map Prod.fst).filter (fun x => ! E.contains x) := by
    refine List.mem_filter.mpr ⟨List.mem_map.mpr ⟨(c, col), hmem, rfl⟩, ?_⟩
    simpa using hE
  rw [lookup_map_self _ _ c hc, lookup_eq_of_mem_nodup t.cols t.nodupIds c col hmem]
  rfl

/-- Witness for C2: in `T0` with `["id"]` excluded, the `email` column is
bound to `excluded.email`. -/
theorem buildConflictUpdateColumns_value_witness :
    (buildConflictUpdateColumns T0 ["id"]).lookup "email"
      = some (SQL.raw ("excluded." ++ Column.name { name := "email" })) :=
  buildConflictUpdateColumns_value T0 ["id"] "email" { name := "email" }
    (by decide) (by decide)

/-- Claim C5: exclusion-list elements not present in the table are silently
ignored: restricting the exclusion list to the table's identifiers leaves the
output unchanged, for every exclusion list. -/
theorem buildConflictUpdateColumns_ignores_unknown (t : Table) (E : List String) :
    buildConflictUpdateColumns t E
      = buildConflictUpdateColumns t (E.filter (fun c => t.ids.contains c)) := by
  rw [build_eq_map, build_eq_map]
  congr 1
  apply List.filter_congr
  intro c hc
  have hp : t.ids.contains c = true := by
    simpa [Table.ids] using hc
  have hco : (E.filter (fun x => t.ids.contains x)).contains c = E.contains c := by
    by_cases hEc : c ∈ E
    · have hcf : c ∈ E.filter (fun x => t.ids.contains x) :=
        List.mem_filter.mpr ⟨hEc, hp⟩
      simp [hcf, hEc, Table.ids]
      obtain ⟨p, hmemp, hfst⟩ := List.mem_map.mp hc
      subst hfst
      exact ⟨p.2, hmemp⟩
    · simp [List.mem_filter, hEc]
  rw [hco]

/-- Claim C6: the output keys appear in the table's column order with the
excluded identifiers removed. -/
theorem buildConflictUpdateColumns_order (t : Table) (E : List String) :
    (buildConflictUpdateColumns t E).map Prod.fst
      = t.ids.filter (fun c => ! E.contains c) := by
  rw [build_eq_map]
  simp [Table.ids, Function.comp_def]

/-- Claim C8: `buildConflictUpdateColumns` is pure: its result is a function
of its arguments alone, so any two calls on equal inputs return structurally
identical mappings. -/
theorem buildConflictUpdateColumns_pure (ta tb : Table) (Ea Eb : List String)
    (ht : ta = tb) (hE : Ea = Eb) :
    buildConflictUpdateColumns ta Ea = buildConflictUpdateColumns tb Eb := by
  subst ht
  subst hE
  rfl

/-- Witness for C8: two calls on `T0` with `["id"]` agree. -/
theorem buildConflictUpdateColumns_pure_witness :
    buildConflictUpdateColumns T0 ["id"] = buildConflictUpdateColumns T0 ["id"] :=
  buildConflictUpdateColumns_pure T0 T0 ["id"] ["id"] rfl rfl

/-- Claim C3: `upsertRecord` issues a single insert statement whose conflict
target is `conflictColumns` and whose update clause is exactly the mapping
returned by one call to `buildConflictUpdateColumns` with the table and the
exclusion list forwarded verbatim, `excludeColumns` defaulting to `[]`. -/
theorem upsertRecord_statement (t : Table) (data : Row) (cc ec : List String) :
    upsertRecord t data cc ec
        = { table := t
            values := data
            target := cc
            set := buildConflictUpdateColumns t ec }
      ∧ upsertRecord t data cc = upsertRecord t data cc [] :=
  ⟨rfl, rfl⟩

/-- Claim C7: `upsertRecord` performs no validation, catching or recovery of
its own: composed with any connection, the outcome is exactly the
connection's outcome for the one statement issued — an error surfaces
unchanged and a success is the returned rows, never a partial result. -/
theorem upsertRecord_propagates (exec : InsertStatement → Except String (List Row))
    (t : Table) (data : Row) (cc ec : List String) :
    (∀ e, exec (upsertRecord t data cc ec) = Except.error e →
        runUpsert exec t data cc ec = Except.error e)
      ∧ (∀ rows, exec (upsertRecord t data cc ec) = Except.ok rows →
        runUpsert exec t data cc ec = Except.ok rows) :=
  ⟨fun _ h => h, fun _ h => h⟩

/-- Witness for C7: a connection that raises a connection failure has its
error propagated unchanged to the caller. -/
theorem upsertRecord_propagates_witness :
    runUpsert (fun _ => Except.error "connection failure") T0 [] ["id"] []
      = Except.error "connection failure" :=
  (upsertRecord_propagates (fun _ => Except.error "connection failure")
    T0 [] ["id"] []).1 "connection failure" rfl

/-- Claim C9: `takeFirstOrThrow` throws `"First item not found"` exactly when
the candidate first value is falsy: it throws not only on the empty array but
on `[0]`, `[""]`, `[false]` and `[null]` even though they are non-empty, and
it returns the first element only when that element is truthy. -/
theorem takeFirstOrThrow_falsy :
    (∀ v vs, takeFirstOrThrow (v :: vs)
        = if truthy v then Except.ok v else Except.error "First item not found")
      ∧ takeFirstOrThrow [] = Except.error "First item not found"
      ∧ takeFirstOrThrow [JSValue.vnum 0] = Except.error "First item not found"
      ∧ takeFirstOrThrow [JSValue.vstr ""] = Except.error "First item not found"
      ∧ takeFirstOrThrow [JSValue.vbool false] = Except.error "First item not found"
      ∧ takeFirstOrThrow [JSValue.vnull] = Except.error "First item not found" := by
  refine ⟨?_, by rfl, by rfl, by rfl, by rfl, by rfl⟩
  intro v vs
  by_cases h : truthy v = true
  · simp [takeFirstOrThrow, takeFirstOrNull, h]
  · simp [takeFirstOrThrow, takeFirstOrNull, h]

/-- Claim C10: `takeFirstOrNull` returns the element at index `0` when the
array is non-empty and `null` when it is empty; it is total and its result
never depends on any element past the first. -/
theorem takeFirstOrNull_head :
    (∀ v vs, takeFirstOrNull (v :: vs) = v)
      ∧ takeFirstOrNull [] = JSValue.vnull
      ∧ (∀ v vs ws, takeFirstOrNull (v :: vs) = takeFirstOrNull (v :: ws)) := by
  refine ⟨?_, by decide, ?_⟩
  · intro v vs
    simp [takeFirstOrNull]
  · intro v vs ws
    simp [takeFirstOrNull]

/-- Claim C4: executing the statement `upsertRecord` issues: when no stored
row conflicts on the target columns, the record is inserted and the returned
row equals the inserted record exactly; when a row conflicts, the update
clause from `buildConflictUpdateColumns` is applied to it — every
non-excluded column present in the row takes the proposed row's value and
every conflict-target column is unchanged — and the post-operation row is
returned. -/
theorem upsertRecord_execute (t : Table) (db : List Row) (data : Row)
    (cc ec : List String)
    (hnames : (t.cols.map (fun q => q.2.name)).Nodup) :
    (db.find? (fun r => rowsConflict cc r data) = none →
        executeInsert db (upsertRecord t data cc ec) = (db ++ [data], [data]))
      ∧ (∀ r, db.find? (fun r => rowsConflict cc r data) = some r →
          (executeInsert db (upsertRecord t data cc ec)).2
              = [applySet t data r (buildConflictUpdateColumns t ec)]
            ∧ (∀ c col v, (c, col) ∈ t.cols → c ∉ ec →
                c ∈ r.map Prod.fst → data.lookup c = some v →
                (applySet t data r (buildConflictUpdateColumns t ec)).lookup c
                  = some v)
            ∧ (∀ c, c ∈ cc →
                (applySet t data r (buildConflictUpdateColumns t ec)).lookup c
                  = r.lookup c)) := by
  have hknodup : ((buildConflictUpdateColumns t ec).map Prod.fst).Nodup := by
    rw [build_keys]
    exact t.nodupIds.filter _
  refine ⟨?_, ?_⟩
  · intro h
    simp [executeInsert, upsertRecord, h]
  · intro r hr
    refine ⟨?_, ?_, ?_⟩
    · simp [executeInsert, upsertRecord, hr]
    · intro c col v hmem hec hkey hdata
      have heval : evalConflictExpr t data (SQL.raw ("excluded." ++ col.name))
          = some v := by
        rw [evalConflictExpr_eq t data c col hmem hnames, hdata]
      exact applySet_lookup_mem t data (buildConflictUpdateColumns t ec) r c
        (SQL.raw ("excluded." ++ col.name)) v hknodup
        (build_mem t ec c col hmem hec) heval hkey
    · intro c hc
      have hconf : rowsConflict cc r data = true := by
        have h2 := List.find?_some hr
        simpa using h2
      obtain ⟨v, hrv, hdv⟩ := rowsConflict_lookup cc r data hconf c hc
      by_cases hcm : c ∈ (buildConflictUpdateColumns t ec).map Prod.fst
      · rw [build_keys] at hcm
        obtain ⟨hcid, hcp⟩ := List.mem_filter.mp hcm
        have hcec : c ∉ ec := by simpa using hcp
        obtain ⟨p, hp, hpf⟩ := List.mem_map.mp hcid
        have hmemp : (c, p.2) ∈ t.cols := by
          rw [← hpf]
          exact hp
        have heval : evalConflictExpr t data (SQL.raw ("excluded." ++ p.2.name))
            = some v := by
          rw [evalConflictExpr_eq t data c p.2 hmemp hnames, hdv]
        have hfin := applySet_lookup_mem t data (buildConflictUpdateColumns t ec)
          r c (SQL.raw ("excluded." ++ p.2.name)) v hknodup
          (build_mem t ec c p.2 hmemp hcec) heval
          (mem_keys_of_lookup r c v hrv)
        rw [hfin, hrv]
      · rw [applySet_lookup_not_mem t data c (buildConflictUpdateColumns t ec)
          r hcm]

/-- Witness for C4: the spec's scenario at the concrete table `T0` — the
conflict case returns the row with the proposed email and the unchanged id,
the no-conflict case returns the inserted record exactly — together with the
general statement instantiated there. -/
theorem upsertRecord_execute_witness :
    (executeInsert [row0] (upsertRecord T0 data0 ["id"])).2
        = [[("id", JSValue.vnum 1), ("email", JSValue.vstr "a@x.com")]]
      ∧ executeInsert [] (upsertRecord T0 data0 ["id"]) = ([data0], [data0])
      ∧ ((List.find? (fun r => rowsConflict ["id"] r data0) [row0] = none →
            executeInsert [row0] (upsertRecord T0 data0 ["id"] [])
              = ([row0] ++ [data0], [data0]))
          ∧ (∀ r, List.find? (fun r => rowsConflict ["id"] r data0) [row0]
                = some r →
              (executeInsert [row0] (upsertRecord T0 data0 ["id"] [])).2
                  = [applySet T0 data0 r (buildConflictUpdateColumns T0 [])]
                ∧ (∀ c col v, (c, col) ∈ T0.cols → c ∉ ([] : List String) →
                    c ∈ r.map Prod.fst → data0.lookup c = some v →
                    (applySet T0 data0 r
                        (buildConflictUpdateColumns T0 [])).lookup c
                      = some v)
                ∧ (∀ c, c ∈ ["id"] →
                    (applySet T0 data0 r
                        (buildConflictUpdateColumns T0 [])).lookup c
                      = r.lookup c))) :=
  ⟨by decide, by decide,
    upsertRecord_execute T0 [row0] data0 ["id"] [] (by decide)⟩

end AwesomeDrizzle
